import Mathlib

/-!
Verification of the null-bd/logger structured logging library.

The development shallowly embeds the Go sources:
  - types/types.go       : Level, Fields, Config
  - internal/core (logger.go)        : NewLogger, initializeWriters, createWriter,
                                       log, isLevelEnabled, mergeFields, writeLog,
                                       Debug/Info/Warn/Error/Fatal
  - internal/core (trace_context.go) : traceStore, SetTraceFields, GetTraceFields,
                                       ClearTraceFields, cleanupTraces,
                                       performSizeBasedCleanup
Go maps are modelled as association lists observed through lookup; Go map
assignment is the standard first-occurrence update.  time.Time values are
modelled as natural numbers (nanoseconds since an epoch); goroutine ids as
natural numbers.  Panics (failed type assertions) surface as Option/Except
failure values, and the filesystem behind os.OpenFile is a boolean oracle
on paths.
-/

set_option linter.unnecessarySeqFocus false
set_option linter.unusedVariables false

namespace NullBdLogger

/-- Model of Go `interface` values stored in `types.Fields`: a closed variant
of the structured values the logger actually serializes. -/
inductive GoValue where
  | str : String → GoValue
  | int : Int → GoValue
  | boolean : Bool → GoValue
  | null : GoValue
deriving DecidableEq, Repr

/-- Model of `types.Fields` (`map[string]interface` in Go): an association
list from keys to values, observed only through `findField`. -/
abbrev Fields := List (String × GoValue)

/-- Go map lookup `m[k]` on a `Fields` value (first matching key wins; Go maps
never hold duplicate keys). -/
def findField : Fields → String → Option GoValue
  | [], _ => none
  | kv :: rest, k => if kv.1 = k then some kv.2 else findField rest k

/-- Go map assignment `m[k] = v` on a `Fields` value: replace the first entry
with key `k`, or append a fresh entry when `k` is absent. -/
def setField : Fields → String → GoValue → Fields
  | [], k, v => [(k, v)]
  | kv :: rest, k, v => if kv.1 = k then (k, v) :: rest else kv :: setField rest k v

/-- A Go `for k, v := range src` loop whose body is `dst[k] = v`. -/
def setFields (m : Fields) (src : Fields) : Fields :=
  src.foldl (fun acc kv => setField acc kv.1 kv.2) m

/-- Model of `traceEntry` in trace_context.go: trace fields plus the
`time.Now()` timestamp recorded when they were set. -/
structure TraceEntry where
  fields : Fields
  timestamp : Nat
deriving DecidableEq, Repr

/-- Model of the `traces map[uint64]*traceEntry` map inside `traceStore`:
an association list from goroutine id to entry. -/
abbrev TraceStore := List (Nat × TraceEntry)

/-- Go map lookup `traces[gID]`. -/
def findTrace : TraceStore → Nat → Option TraceEntry
  | [], _ => none
  | p :: rest, g => if p.1 = g then some p.2 else findTrace rest g

/-- Model of `SetTraceFields` in trace_context.go: the caller identity `gID`
stands for the resolved `getGoroutineID()` and `now` for `time.Now()`; the
entry for `gID` is inserted or overwritten with the given fields and time. -/
def setTraceFields : TraceStore → Nat → Fields → Nat → TraceStore
  | [], gID, fields, now => [(gID, ⟨fields, now⟩)]
  | p :: rest, gID, fields, now =>
      if p.1 = gID then (gID, ⟨fields, now⟩) :: rest
      else p :: setTraceFields rest gID fields now

/-- Model of `GetTraceFields` in trace_context.go: returns the current
identity's field set, or `none` where Go returns `nil` (absent). -/
def getTraceFields (s : TraceStore) (gID : Nat) : Option Fields :=
  (findTrace s gID).map TraceEntry.fields

/-- Model of `ClearTraceFields` in trace_context.go: `delete(traces, gID)`. -/
def clearTraceFields (s : TraceStore) (gID : Nat) : TraceStore :=
  s.filter (fun p => p.1 != gID)

theorem findTrace_setTraceFields (s : TraceStore) (gID : Nat) (fields : Fields)
    (now : Nat) (g : Nat) :
    findTrace (setTraceFields s gID fields now) g =
      if g = gID then some ⟨fields, now⟩ else findTrace s g := by
  induction s with
  | nil =>
      by_cases h : g = gID
      · subst h; simp [setTraceFields, findTrace]
      · simp [setTraceFields, findTrace, h, Ne.symm h]
  | cons p rest ih =>
      by_cases hp : p.1 = gID
      · by_cases h : g = gID
        · subst h; simp [setTraceFields, findTrace, hp]
        · simp [setTraceFields, findTrace, hp, h, Ne.symm h]
      · by_cases h : p.1 = g
        · have hne : ¬ g = gID := fun e => hp (h.trans e)
          simp [setTraceFields, findTrace, hp, h, hne]
        · simp [setTraceFields, findTrace, hp, h, ih]

theorem findTrace_clearTraceFields (s : TraceStore) (gID : Nat) (g : Nat) :
    findTrace (clearTraceFields s gID) g =
      if g = gID then none else findTrace s g := by
  induction s with
  | nil => simp [clearTraceFields, findTrace]
  | cons p rest ih =>
      simp only [clearTraceFields, List.filter_cons] at ih ⊢
      by_cases hp : p.1 = gID
      · by_cases h : g = gID
        · subst h; simpa [hp] using ih
        · have hne : ¬ gID = g := fun e => h e.symm
          simpa [hp, h, hne, findTrace] using ih
      · by_cases h : p.1 = g
        · have hne : ¬ g = gID := fun e => hp (h.trans e)
          simp [findTrace, hp, h, hne]
        · simp [findTrace, hp, h, ih]

/-- C6: setting trace fields under one caller identity changes nothing
observable through `GetTraceFields` under any distinct identity. -/
theorem trace_isolation (s : TraceStore) (a b : Nat) (f : Fields) (now : Nat)
    (hab : a ≠ b) :
    getTraceFields (setTraceFields s a f now) b = getTraceFields s b := by
  simp [getTraceFields, findTrace_setTraceFields, Ne.symm hab]

theorem trace_isolation_witness :
    (1 : Nat) ≠ 2 ∧
      getTraceFields (setTraceFields [] 1 [("k", GoValue.str "v")] 5) 2 =
        getTraceFields [] 2 :=
  ⟨by decide, trace_isolation [] 1 2 [("k", GoValue.str "v")] 5 (by decide)⟩

/-- C7: under a fixed caller identity, a second `SetTraceFields` fully
replaces the first; `GetTraceFields` returns exactly the second mapping. -/
theorem trace_overwrite (s : TraceStore) (g : Nat) (f1 f2 : Fields)
    (t1 t2 : Nat) :
    getTraceFields (setTraceFields (setTraceFields s g f1 t1) g f2 t2) g =
      some f2 := by
  simp [getTraceFields, findTrace_setTraceFields]

/-- C8: `ClearTraceFields` is a total function (never errors), clearing twice
equals clearing once, and after a clear — whether or not the identity had an
entry — `GetTraceFields` under that identity returns absent. -/
theorem clear_idempotent_and_absent (s : TraceStore) (g : Nat) :
    clearTraceFields (clearTraceFields s g) g = clearTraceFields s g ∧
      getTraceFields (clearTraceFields s g) g = none := by
  constructor
  · simp [clearTraceFields, List.filter_filter]
  · simp [getTraceFields, findTrace_clearTraceFields]

/-! ## Logger configuration and construction (types.go, logger.go) -/

/-- Model of `types.Level` (a Go string type). -/
abbrev Level := String

/-- Model of `types.Config`.  `defaultFields` is the `map[string]string` of
fields added to every record; `outputPaths` the sink identifiers. -/
structure Config where
  serviceName : String
  environment : String
  logLevel : Level
  format : String
  defaultFields : List (String × String)
  outputPaths : List String
deriving DecidableEq, Repr

/-- Model of `defaultConfig()` in the core package. -/
def defaultConfig : Config :=
  { serviceName := "unknown", environment := "development",
    logLevel := "info", format := "json", defaultFields := [],
    outputPaths := ["stdout"] }

/-- Model of an opened `io.Writer` sink. -/
inductive Writer where
  | stdout : Writer
  | stderr : Writer
  | file : String → Writer
deriving DecidableEq, Repr

/-- Model of `createWriter`: `"stdout"` and `"stderr"` always succeed; any
other path is an `os.OpenFile(path, APPEND CREATE WRONLY, 0644)` call whose
success is decided by the filesystem oracle `fs`. -/
def createWriter (fs : String → Bool) (path : String) : Except String Writer :=
  if path = "stdout" then .ok .stdout
  else if path = "stderr" then .ok .stderr
  else if fs path then .ok (.file path) else .error "open failed"

/-- Model of `initializeWriters`: open a writer per configured output path in
order, aborting with a wrapped error on the first failure. -/
def initWriters (fs : String → Bool) : List String → Except String (List Writer)
  | [] => .ok []
  | path :: rest =>
    match createWriter fs path with
    | .error e => .error ("failed to create writer for " ++ path ++ ": " ++ e)
    | .ok w =>
      match initWriters fs rest with
      | .error e => .error e
      | .ok ws => .ok (w :: ws)

/-- Model of the `core.Logger` struct (its mutex is irrelevant to the
sequential model). -/
structure Logger where
  config : Config
  writers : List Writer
  defaultFields : Fields
deriving DecidableEq, Repr

/-- The copy loop in `NewLogger` storing `map[string]string` default fields
into the logger's `types.Fields` map. -/
def liftStringFields (m : List (String × String)) : Fields :=
  m.map (fun kv => (kv.1, GoValue.str kv.2))

/-- Model of `NewLogger`: a nil config is replaced by `defaultConfig`, the
writers are initialized (construction fails on the first unopenable path),
and the configured default fields are copied into the logger. -/
def NewLogger (fs : String → Bool) (cfg : Option Config) : Except String Logger :=
  let c := cfg.getD defaultConfig
  match initWriters fs c.outputPaths with
  | .error e => .error e
  | .ok ws =>
    .ok { config := c, writers := ws,
          defaultFields := setFields [] (liftStringFields c.defaultFields) }

/-! ## Record assembly and writing (logger.go) -/

/-- Model of `logEntry`.  The `time.Now().UTC()` timestamp is supplied to the
renderers as an already-formatted string, since no property here depends on
the clock. -/
structure LogEntry where
  level : Level
  message : String
  service : String
  environment : String
  requestID : String
  traceID : String
  fields : Fields
deriving DecidableEq, Repr

/-- The `levels` map literal in `isLevelEnabled`; lookup of a key missing
from a Go map yields the zero value 0. -/
def levelRank (lv : Level) : Nat :=
  if lv = "debug" then 0
  else if lv = "info" then 1
  else if lv = "warn" then 2
  else if lv = "error" then 3
  else if lv = "fatal" then 4
  else 0

/-- Model of `isLevelEnabled`: `levels[level] >= levels[l.config.LogLevel]`. -/
def isLevelEnabled (l : Logger) (lv : Level) : Bool :=
  decide (levelRank l.config.logLevel ≤ levelRank lv)

/-- One iteration of the `for k, v := range GetTraceFields()` loop in `log`:
the reserved keys are lifted through the unchecked type assertions
`v.(string)` — `none` models the panic when the value is not a string — and
all other keys are stored into the record's generic field map. -/
def applyTraceField (e : LogEntry) (kv : String × GoValue) : Option LogEntry :=
  if kv.1 = "request_id" then
    match kv.2 with
    | .str s => some { e with requestID := s }
    | _ => none
  else if kv.1 = "trace_id" then
    match kv.2 with
    | .str s => some { e with traceID := s }
    | _ => none
  else some { e with fields := setField e.fields kv.1 kv.2 }

/-- The whole trace-field loop of `log`, propagating a panic as `none`. -/
def processTraceFields : LogEntry → Fields → Option LogEntry
  | e, [] => some e
  | e, kv :: rest =>
    match applyTraceField e kv with
    | none => none
    | some e2 => processTraceFields e2 rest

/-- Model of `mergeFields`: default fields then call-supplied fields are
written over the record's field map, later writes winning. -/
def mergeFields (l : Logger) (e : LogEntry) (fields : Fields) : LogEntry :=
  { e with fields := setFields (setFields e.fields l.defaultFields) fields }

/-- Lines 81-101 of `log`: build the record, pull the trace fields through
the reserved-key lifting, then merge default and call-supplied fields. -/
def buildEntry (l : Logger) (trace : Fields) (lv : Level) (msg : String)
    (fields : Fields) : Option LogEntry :=
  let e : LogEntry :=
    { level := lv, message := msg, service := l.config.serviceName,
      environment := l.config.environment, requestID := "", traceID := "",
      fields := [] }
  match processTraceFields e trace with
  | none => none
  | some e2 => some (mergeFields l e2 fields)

/-- Character escaping of Go's encoding/json for the string values the
logger emits (quote, backslash and common control characters). -/
def escapeJSONChar (c : Char) : String :=
  if c = '"' then "\\\""
  else if c = '\\' then "\\\\"
  else if c = '\n' then "\\n"
  else if c = '\t' then "\\t"
  else if c = '\r' then "\\r"
  else String.singleton c

def escapeJSON (s : String) : String :=
  String.join (s.toList.map escapeJSONChar)

def quoteJSON (s : String) : String := "\"" ++ escapeJSON s ++ "\""

/-- Serialization of a field value, mirroring encoding/json on the closed
value variant. -/
def renderGoValue : GoValue → String
  | .str s => quoteJSON s
  | .int n => toString n
  | .boolean b => if b then "true" else "false"
  | .null => "null"

/-- Lexicographic strict order on character lists, by scalar value. -/
def charListLt : List Char → List Char → Bool
  | [], [] => false
  | [], _ :: _ => true
  | _ :: _, [] => false
  | c :: cs, d :: ds =>
    if c.toNat < d.toNat then true
    else if d.toNat < c.toNat then false
    else charListLt cs ds

/-- Non-strict lexicographic string order. -/
def strLe (a b : String) : Bool := !(charListLt b.toList a.toList)

/-- Insertion into a key-sorted association list (encoding/json emits map
keys in sorted order). -/
def insertByKey (kv : String × GoValue) : Fields → Fields
  | [] => [kv]
  | kv2 :: rest =>
    if strLe kv.1 kv2.1 then kv :: kv2 :: rest else kv2 :: insertByKey kv rest

def sortByKey : Fields → Fields
  | [] => []
  | kv :: rest => insertByKey kv (sortByKey rest)

/-- encoding/json rendering of the `fields` map, keys sorted. -/
def renderFields (m : Fields) : String :=
  let parts := (sortByKey m).map (fun kv => quoteJSON kv.1 ++ ":" ++ renderGoValue kv.2)
  "\x7b" ++ String.intercalate "," parts ++ "\x7d"

/-- Model of `json.Marshal(entry)` over the `logEntry` struct tags:
`request_id`, `trace_id` and `fields` carry `omitempty`. -/
def jsonRender (ts : String) (e : LogEntry) : String :=
  "\x7b" ++ quoteJSON "timestamp" ++ ":" ++ quoteJSON ts
  ++ "," ++ quoteJSON "level" ++ ":" ++ quoteJSON e.level
  ++ "," ++ quoteJSON "message" ++ ":" ++ quoteJSON e.message
  ++ "," ++ quoteJSON "service" ++ ":" ++ quoteJSON e.service
  ++ "," ++ quoteJSON "environment" ++ ":" ++ quoteJSON e.environment
  ++ (if e.requestID = "" then ""
      else "," ++ quoteJSON "request_id" ++ ":" ++ quoteJSON e.requestID)
  ++ (if e.traceID = "" then ""
      else "," ++ quoteJSON "trace_id" ++ ":" ++ quoteJSON e.traceID)
  ++ (if e.fields.isEmpty then ""
      else "," ++ quoteJSON "fields" ++ ":" ++ renderFields e.fields)
  ++ "\x7d"

/-- Model of the text branch of `writeLog`:
`fmt.Sprintf("[%s] %s: %s (RequestID: %s)\n", ...)`. -/
def textRender (ts : String) (e : LogEntry) : String :=
  "[" ++ ts ++ "] " ++ e.level ++ ": " ++ e.message
    ++ " (RequestID: " ++ e.requestID ++ ")\n"

/-- Model of `writeLog`: render once, then write to every sink (in json mode
Go writes the record and a newline; both writes are concatenated here).  The
result lists the bytes each configured writer receives, in writer order. -/
def writeLog (l : Logger) (ts : String) (e : LogEntry) : List String :=
  let output := if l.config.format = "json" then jsonRender ts e else textRender ts e
  l.writers.map (fun _ => if l.config.format = "json" then output ++ "\n" else output)

/-- Model of `log`: drop silently below the configured level, otherwise build
the record and write it to every sink.  `.error ()` models the panic escaping
`log` when a reserved trace key holds a non-string value; `.ok none` means the
call was filtered (zero bytes on any sink); `.ok (some outs)` gives the bytes
written per sink. -/
def log (l : Logger) (ts : String) (trace : Fields) (lv : Level) (msg : String)
    (fields : Fields) : Except Unit (Option (List String)) :=
  if isLevelEnabled l lv then
    match buildEntry l trace lv msg fields with
    | none => .error ()
    | some e => .ok (some (writeLog l ts e))
  else .ok none

/-- Model of `Logger.Debug`; `trace` is the mapping `GetTraceFields()`
returns for the calling goroutine (`[]` when absent, since ranging over a
nil map does nothing). -/
def debugCall (l : Logger) (ts : String) (trace : Fields) (msg : String)
    (fields : Fields) : Except Unit (Option (List String)) :=
  log l ts trace "debug" msg fields

/-- Model of `Logger.Info`. -/
def infoCall (l : Logger) (ts : String) (trace : Fields) (msg : String)
    (fields : Fields) : Except Unit (Option (List String)) :=
  log l ts trace "info" msg fields

/-- Model of `Logger.Warn`. -/
def warnCall (l : Logger) (ts : String) (trace : Fields) (msg : String)
    (fields : Fields) : Except Unit (Option (List String)) :=
  log l ts trace "warn" msg fields

/-- Model of `Logger.Error`. -/
def errorCall (l : Logger) (ts : String) (trace : Fields) (msg : String)
    (fields : Fields) : Except Unit (Option (List String)) :=
  log l ts trace "error" msg fields

/-- Model of `Logger.Fatal`: logs at fatal level, then `os.Exit(1)`
unconditionally terminates the process — the `true` flag records the exit. -/
def fatalCall (l : Logger) (ts : String) (trace : Fields) (msg : String)
    (fields : Fields) : Except Unit (Option (List String)) × Bool :=
  (log l ts trace "fatal" msg fields, true)

/-! ## Association-list lemmas for the Go map model -/

/-- A Go map never holds two entries with the same key. -/
def keysNodup (m : Fields) : Prop := (m.map Prod.fst).Nodup

instance (m : Fields) : Decidable (keysNodup m) :=
  List.nodupDecidable _

theorem findField_setField (m : Fields) (k : String) (v : GoValue) (k' : String) :
    findField (setField m k v) k' = if k' = k then some v else findField m k' := by
  induction m with
  | nil =>
      by_cases h : k' = k
      · subst h; simp [setField, findField]
      · simp [setField, findField, h, Ne.symm h]
  | cons kv rest ih =>
      by_cases hp : kv.1 = k
      · by_cases h : k' = k
        · subst h; simp [setField, findField, hp]
        · simp [setField, findField, hp, h, Ne.symm h]
      · by_cases h : kv.1 = k'
        · have hne : ¬ k' = k := fun e => hp (h.trans e)
          simp [setField, findField, hp, h, hne]
        · simp [setField, findField, hp, h, ih]

theorem findField_eq_none (m : Fields) (k : String) :
    findField m k = none ↔ k ∉ m.map Prod.fst := by
  induction m with
  | nil => simp [findField]
  | cons kv rest ih =>
      by_cases h : kv.1 = k
      · simp [findField, h]
      · simp [findField, h, Ne.symm h, ih]

theorem findField_setFields (src : Fields) (m : Fields) (k : String)
    (h : keysNodup src) :
    findField (setFields m src) k =
      match findField src k with
      | some v => some v
      | none => findField m k := by
  induction src generalizing m with
  | nil => simp [setFields, findField]
  | cons kv rest ih =>
      have hcons : (kv.1 :: rest.map Prod.fst).Nodup := by
        simpa only [keysNodup, List.map_cons] using h
      have hpair := List.nodup_cons.mp hcons
      have h1 : keysNodup rest := hpair.2
      have h2 : kv.1 ∉ rest.map Prod.fst := hpair.1
      have hstep : setFields m (kv :: rest) = setFields (setField m kv.1 kv.2) rest := rfl
      rw [hstep, ih _ h1]
      by_cases hk : kv.1 = k
      · subst hk
        have hnone : findField rest kv.1 = none := (findField_eq_none rest kv.1).mpr h2
        simp [findField, hnone, findField_setField]
      · cases h' : findField rest k with
        | none => simp [findField, hk, h', findField_setField, Ne.symm hk]
        | some v => simp [findField, hk, h']

/-! ## Trace-field processing lemmas -/

/-- Whether a field value is a Go string. -/
def isStr : GoValue → Bool
  | .str _ => true
  | _ => false

/-- Every value stored under a reserved key (`request_id`, `trace_id`) is a
string — precisely the condition under which the unchecked type assertions
`v.(string)` in `log` cannot panic. -/
def reservedOk (trace : Fields) : Bool :=
  trace.all fun kv =>
    if kv.1 = "request_id" ∨ kv.1 = "trace_id" then isStr kv.2 else true

theorem applyTraceField_isSome (e : LogEntry) (kv : String × GoValue)
    (h : (kv.1 = "request_id" ∨ kv.1 = "trace_id") → isStr kv.2 = true) :
    ∃ e2, applyTraceField e kv = some e2 := by
  by_cases hres : kv.1 = "request_id" ∨ kv.1 = "trace_id"
  · have hs := h hres
    cases hv : kv.2 with
    | str s =>
        by_cases h1 : kv.1 = "request_id"
        · exact ⟨{ e with requestID := s }, by simp [applyTraceField, h1, hv]⟩
        · have h2 : kv.1 = "trace_id" := hres.resolve_left h1
          exact ⟨{ e with traceID := s }, by simp [applyTraceField, h1, h2, hv]⟩
    | int n => simp [isStr, hv] at hs
    | boolean b => simp [isStr, hv] at hs
    | null => simp [isStr, hv] at hs
  · push_neg at hres
    exact ⟨{ e with fields := setField e.fields kv.1 kv.2 },
      by simp [applyTraceField, hres.1, hres.2]⟩

theorem processTraceFields_isSome (trace : Fields) (e : LogEntry)
    (h : reservedOk trace = true) :
    ∃ e2, processTraceFields e trace = some e2 := by
  induction trace generalizing e with
  | nil => exact ⟨e, rfl⟩
  | cons kv rest ih =>
      have hall := List.all_eq_true.mp h
      have hkv : (kv.1 = "request_id" ∨ kv.1 = "trace_id") → isStr kv.2 = true := by
        intro hres
        have := hall kv (List.mem_cons_self kv rest)
        simpa [hres] using this
      have hrest : reservedOk rest = true :=
        List.all_eq_true.mpr fun x hx => hall x (List.mem_cons_of_mem _ hx)
      obtain ⟨e1, he1⟩ := applyTraceField_isSome e kv hkv
      obtain ⟨e2, he2⟩ := ih e1 hrest
      exact ⟨e2, by simp [processTraceFields, he1, he2]⟩

theorem applyTraceField_skeleton (e : LogEntry) (kv : String × GoValue)
    (e' : LogEntry) (happ : applyTraceField e kv = some e') :
    e'.level = e.level ∧ e'.message = e.message ∧ e'.service = e.service ∧
      e'.environment = e.environment := by
  unfold applyTraceField at happ
  by_cases h1 : kv.1 = "request_id"
  · cases hv : kv.2 <;> simp [h1, hv] at happ <;> subst happ <;> simp
  · by_cases h2 : kv.1 = "trace_id"
    · cases hv : kv.2 <;> simp [h1, h2, hv] at happ <;> subst happ <;> simp
    · simp [h1, h2] at happ
      subst happ
      simp

theorem applyTraceField_request (e : LogEntry) (v : GoValue) (e' : LogEntry)
    (happ : applyTraceField e ("request_id", v) = some e') :
    ∃ s, v = GoValue.str s ∧ e' = { e with requestID := s } := by
  unfold applyTraceField at happ
  cases hv : v <;> simp [hv] at happ
  exact ⟨_, rfl, happ.symm⟩

theorem applyTraceField_trace (e : LogEntry) (v : GoValue) (e' : LogEntry)
    (happ : applyTraceField e ("trace_id", v) = some e') :
    ∃ s, v = GoValue.str s ∧ e' = { e with traceID := s } := by
  unfold applyTraceField at happ
  cases hv : v <;> simp [hv] at happ
  exact ⟨_, rfl, happ.symm⟩

theorem applyTraceField_requestID_of_ne (e : LogEntry) (kv : String × GoValue)
    (e' : LogEntry) (h : kv.1 ≠ "request_id")
    (happ : applyTraceField e kv = some e') :
    e'.requestID = e.requestID := by
  unfold applyTraceField at happ
  by_cases h2 : kv.1 = "trace_id"
  · cases hv : kv.2 <;> simp [h, h2, hv] at happ <;> subst happ <;> simp
  · simp [h, h2] at happ
    subst happ
    simp

theorem applyTraceField_traceID_of_ne (e : LogEntry) (kv : String × GoValue)
    (e' : LogEntry) (h : kv.1 ≠ "trace_id")
    (happ : applyTraceField e kv = some e') :
    e'.traceID = e.traceID := by
  unfold applyTraceField at happ
  by_cases h1 : kv.1 = "request_id"
  · cases hv : kv.2 <;> simp [h1, hv] at happ <;> subst happ <;> simp
  · simp [h1, h] at happ
    subst happ
    simp

/-- Condition selecting the trace pairs that land in the generic field map. -/
def nonReserved (kv : String × GoValue) : Bool :=
  !(kv.1 == "request_id") && !(kv.1 == "trace_id")

theorem processTraceFields_fields (trace : Fields) (e e2 : LogEntry)
    (hrun : processTraceFields e trace = some e2) :
    e2.fields = setFields e.fields (trace.filter nonReserved) ∧
      e2.level = e.level ∧ e2.message = e.message ∧ e2.service = e.service ∧
      e2.environment = e.environment := by
  induction trace generalizing e with
  | nil =>
      simp [processTraceFields] at hrun
      subst hrun
      simp [setFields]
  | cons kv rest ih =>
      simp only [processTraceFields] at hrun
      cases happ : applyTraceField e kv with
      | none => simp [happ] at hrun
      | some e1 =>
          rw [happ] at hrun
          obtain ⟨hf, hl, hm, hs, he⟩ := ih e1 hrun
          obtain ⟨sl, sm, ss, se⟩ := applyTraceField_skeleton e kv e1 happ
          refine ⟨?_, hl.trans sl, hm.trans sm, hs.trans ss, he.trans se⟩
          by_cases h1 : kv.1 = "request_id"
          · obtain ⟨s, hv, he1⟩ := applyTraceField_request e kv.2 e1
              (by rw [← h1]; exact happ)
            rw [List.filter_cons_of_neg (by simp [nonReserved, h1])]
            rw [hf, he1]
          · by_cases h2 : kv.1 = "trace_id"
            · obtain ⟨s, hv, he1⟩ := applyTraceField_trace e kv.2 e1
                (by rw [← h2]; exact happ)
              rw [List.filter_cons_of_neg (by simp [nonReserved, h2])]
              rw [hf, he1]
            · have hgen : e1 = { e with fields := setField e.fields kv.1 kv.2 } := by
                unfold applyTraceField at happ
                simp [h1, h2] at happ
                exact happ.symm
              rw [List.filter_cons_of_pos (by simp [nonReserved, h1, h2])]
              rw [hf, hgen]
              rfl

theorem processTraceFields_requestID (trace : Fields) (e e2 : LogEntry)
    (hrun : processTraceFields e trace = some e2) (hnd : keysNodup trace) :
    (∀ s, ("request_id", GoValue.str s) ∈ trace → e2.requestID = s) ∧
      ("request_id" ∉ trace.map Prod.fst → e2.requestID = e.requestID) := by
  induction trace generalizing e with
  | nil =>
      simp [processTraceFields] at hrun
      subst hrun
      simp
  | cons kv rest ih =>
      have hcons : (kv.1 :: rest.map Prod.fst).Nodup := by
        simpa only [keysNodup, List.map_cons] using hnd
      have hpair := List.nodup_cons.mp hcons
      simp only [processTraceFields] at hrun
      cases happ : applyTraceField e kv with
      | none => simp [happ] at hrun
      | some e1 =>
          rw [happ] at hrun
          have ihres := ih e1 hrun hpair.2
          constructor
          · intro s hmem
            rcases List.mem_cons.mp hmem with heq | hmem2
            · subst heq
              obtain ⟨s', hv, he1⟩ := applyTraceField_request e (GoValue.str s) e1 happ
              have hss : s' = s := by
                have h3 : GoValue.str s = GoValue.str s' := hv
                simpa using h3.symm
              have habs : "request_id" ∉ rest.map Prod.fst := hpair.1
              have h2 := ihres.2 habs
              rw [h2, he1, hss]
            · exact ihres.1 s hmem2
          · intro habs
            have hne : kv.1 ≠ "request_id" := by
              intro h
              exact habs (by simp [← h])
            have h1 := applyTraceField_requestID_of_ne e kv e1 hne happ
            have h2 := ihres.2 (fun hm => habs (by simp [hm]))
            rw [h2, h1]

theorem processTraceFields_traceID (trace : Fields) (e e2 : LogEntry)
    (hrun : processTraceFields e trace = some e2) (hnd : keysNodup trace) :
    (∀ s, ("trace_id", GoValue.str s) ∈ trace → e2.traceID = s) ∧
      ("trace_id" ∉ trace.map Prod.fst → e2.traceID = e.traceID) := by
  induction trace generalizing e with
  | nil =>
      simp [processTraceFields] at hrun
      subst hrun
      simp
  | cons kv rest ih =>
      have hcons : (kv.1 :: rest.map Prod.fst).Nodup := by
        simpa only [keysNodup, List.map_cons] using hnd
      have hpair := List.nodup_cons.mp hcons
      simp only [processTraceFields] at hrun
      cases happ : applyTraceField e kv with
      | none => simp [happ] at hrun
      | some e1 =>
          rw [happ] at hrun
          have ihres := ih e1 hrun hpair.2
          constructor
          · intro s hmem
            rcases List.mem_cons.mp hmem with heq | hmem2
            · subst heq
              obtain ⟨s', hv, he1⟩ := applyTraceField_trace e (GoValue.str s) e1 happ
              have hss : s' = s := by
                have h3 : GoValue.str s = GoValue.str s' := hv
                simpa using h3.symm
              have habs : "trace_id" ∉ rest.map Prod.fst := hpair.1
              have h2 := ihres.2 habs
              rw [h2, he1, hss]
            · exact ihres.1 s hmem2
          · intro habs
            have hne : kv.1 ≠ "trace_id" := by
              intro h
              exact habs (by simp [← h])
            have h1 := applyTraceField_traceID_of_ne e kv e1 hne happ
            have h2 := ihres.2 (fun hm => habs (by simp [hm]))
            rw [h2, h1]

theorem findField_setFields_not_mem (src : Fields) (m : Fields) (k : String)
    (h : k ∉ src.map Prod.fst) :
    findField (setFields m src) k = findField m k := by
  induction src generalizing m with
  | nil => rfl
  | cons kv rest ih =>
      have h1 : k ≠ kv.1 := fun e => h (by simp [e])
      have h2 : k ∉ rest.map Prod.fst := fun hm => h (by simp [hm])
      have hstep : setFields m (kv :: rest) = setFields (setField m kv.1 kv.2) rest := rfl
      rw [hstep, ih _ h2, findField_setField, if_neg h1]

theorem findField_eq_of_mem (m : Fields) (k : String) (v : GoValue)
    (hnd : keysNodup m) (hmem : (k, v) ∈ m) : findField m k = some v := by
  induction m with
  | nil => simp at hmem
  | cons kv rest ih =>
      have hcons : (kv.1 :: rest.map Prod.fst).Nodup := by
        simpa only [keysNodup, List.map_cons] using hnd
      have hpair := List.nodup_cons.mp hcons
      rcases List.mem_cons.mp hmem with heq | hmem2
      · rw [← heq]
        simp [findField]
      · have hk : kv.1 ≠ k := by
          intro h
          exact hpair.1 (h ▸ List.mem_map_of_mem Prod.fst hmem2)
        simp [findField, hk]
        exact ih hpair.2 hmem2

theorem keysNodup_filter (m : Fields) (p : String × GoValue → Bool)
    (h : keysNodup m) : keysNodup (m.filter p) := by
  have hs : (m.filter p).Sublist m := List.filter_sublist m
  exact List.Nodup.sublist (hs.map Prod.fst) h

theorem findField_filter_nonReserved (trace : Fields) (k : String)
    (hk1 : k ≠ "request_id") (hk2 : k ≠ "trace_id") :
    findField (trace.filter nonReserved) k = findField trace k := by
  induction trace with
  | nil => rfl
  | cons kv rest ih =>
      by_cases hp : nonReserved kv = true
      · rw [List.filter_cons_of_pos hp]
        by_cases hk : kv.1 = k <;> simp [findField, hk, ih]
      · have hres : kv.1 = "request_id" ∨ kv.1 = "trace_id" := by
          by_contra hcon
          push_neg at hcon
          exact hp (by simp [nonReserved, hcon.1, hcon.2])
        rw [List.filter_cons_of_neg (by simpa using hp)]
        have hk : kv.1 ≠ k := by
          rcases hres with h | h
          · rw [h]; exact Ne.symm hk1
          · rw [h]; exact Ne.symm hk2
        rw [ih, findField, if_neg hk]

theorem log_no_panic (l : Logger) (ts : String) (trace : Fields) (lv : Level)
    (msg : String) (call : Fields) (hres : reservedOk trace = true) :
    ∃ r, log l ts trace lv msg call = .ok r := by
  by_cases hen : isLevelEnabled l lv = true
  · obtain ⟨e1, he1⟩ := processTraceFields_isSome trace
      { level := lv, message := msg, service := l.config.serviceName,
        environment := l.config.environment, requestID := "", traceID := "",
        fields := [] } hres
    exact ⟨some (writeLog l ts (mergeFields l e1 call)),
      by simp [log, hen, buildEntry, he1]⟩
  · exact ⟨none, by simp [log, hen]⟩

/-- A concrete logger configuration for counterexamples and witnesses. -/
def demoConfig : Config :=
  { serviceName := "svc", environment := "dev", logLevel := "debug",
    format := "text", defaultFields := [], outputPaths := ["stdout"] }

/-- A concrete logger instance (as `NewLogger` would build from
`demoConfig`). -/
def demoLogger : Logger :=
  { config := demoConfig, writers := [.stdout], defaultFields := [] }

/-- C1 counterexample: a trace mapping that stores a non-string value under
the reserved key `request_id` makes the severity call fail — the unchecked
type assertion `v.(string)` in `log` panics, crashing the caller, so the
claim as stated (completion for values of any type) is false. -/
theorem info_call_panics_on_int_request_id :
    infoCall demoLogger "2024-12-15T10:30:45Z"
      [("request_id", GoValue.int 42)] "started" [] = .error () := by rfl

/-- C1 (amended): provided every value the trace mapping stores under the
reserved keys `request_id` and `trace_id` is a string, each severity call
(Debug/Info/Warn/Error) completes without failure, the reserved keys are
lifted into the record's dedicated RequestID/TraceID fields, and all other
trace keys pass into the record's generic field mapping (where later merge
sources may override them). -/
theorem severity_calls_safe_and_lifting (l : Logger) (ts : String)
    (trace : Fields) (msg : String) (call : Fields) (lv : Level)
    (hres : reservedOk trace = true) (hnd : keysNodup trace) :
    (∃ r, debugCall l ts trace msg call = .ok r) ∧
    (∃ r, infoCall l ts trace msg call = .ok r) ∧
    (∃ r, warnCall l ts trace msg call = .ok r) ∧
    (∃ r, errorCall l ts trace msg call = .ok r) ∧
    (∃ e, buildEntry l trace lv msg call = some e ∧
      (∀ s, ("request_id", GoValue.str s) ∈ trace → e.requestID = s) ∧
      (∀ s, ("trace_id", GoValue.str s) ∈ trace → e.traceID = s) ∧
      (∀ k v, (k, v) ∈ trace → k ≠ "request_id" → k ≠ "trace_id" →
        k ∉ call.map Prod.fst → k ∉ l.defaultFields.map Prod.fst →
        findField e.fields k = some v)) := by
  refine ⟨log_no_panic l ts trace "debug" msg call hres,
    log_no_panic l ts trace "info" msg call hres,
    log_no_panic l ts trace "warn" msg call hres,
    log_no_panic l ts trace "error" msg call hres, ?_⟩
  obtain ⟨e1, he1⟩ := processTraceFields_isSome trace
    { level := lv, message := msg, service := l.config.serviceName,
      environment := l.config.environment, requestID := "", traceID := "",
      fields := [] } hres
  refine ⟨mergeFields l e1 call, by simp [buildEntry, he1], ?_, ?_, ?_⟩
  · intro s hmem
    have h := (processTraceFields_requestID trace _ e1 he1 hnd).1 s hmem
    simpa [mergeFields] using h
  · intro s hmem
    have h := (processTraceFields_traceID trace _ e1 he1 hnd).1 s hmem
    simpa [mergeFields] using h
  · intro k v hmem hk1 hk2 hkc hkd
    have hfields := (processTraceFields_fields trace _ e1 he1).1
    have hmf : (mergeFields l e1 call).fields =
        setFields (setFields e1.fields l.defaultFields) call := rfl
    rw [hmf, findField_setFields_not_mem call _ k hkc,
      findField_setFields_not_mem l.defaultFields _ k hkd, hfields]
    have hmem2 : (k, v) ∈ trace.filter nonReserved := by
      refine List.mem_filter.mpr ⟨hmem, ?_⟩
      simp [nonReserved, hk1, hk2]
    have hnd2 := keysNodup_filter trace nonReserved hnd
    rw [findField_setFields _ [] k hnd2,
      findField_eq_of_mem _ k v hnd2 hmem2]

/-- Concrete trace mapping for the C1 witness. -/
def traceW1 : Fields := [("request_id", GoValue.str "r"), ("x", GoValue.int 7)]

theorem severity_calls_safe_witness :
    reservedOk traceW1 = true ∧ keysNodup traceW1 ∧
      (∃ r, infoCall demoLogger "T" traceW1 "m" [] = Except.ok r) :=
  ⟨by decide, by decide,
    (severity_calls_safe_and_lifting demoLogger "T" traceW1 "m" [] "info"
      (by decide) (by decide)).2.1⟩

/-- C2: in the assembled record's generic field mapping, call-supplied
fields win over default fields, and default fields win over (non-reserved)
trace fields. -/
theorem field_precedence (l : Logger) (trace call : Fields) (lv : Level)
    (msg : String) (e : LogEntry) (k : String)
    (hd : keysNodup l.defaultFields) (ht : keysNodup trace) (hc : keysNodup call)
    (hk1 : k ≠ "request_id") (hk2 : k ≠ "trace_id")
    (hbuild : buildEntry l trace lv msg call = some e) :
    findField e.fields k =
      match findField call k with
      | some v => some v
      | none =>
        match findField l.defaultFields k with
        | some v => some v
        | none => findField trace k := by
  simp only [buildEntry] at hbuild
  cases hpt : processTraceFields
      { level := lv, message := msg, service := l.config.serviceName,
        environment := l.config.environment, requestID := "", traceID := "",
        fields := [] } trace with
  | none => rw [hpt] at hbuild; simp at hbuild
  | some e1 =>
      rw [hpt] at hbuild
      simp only [Option.some.injEq] at hbuild
      subst hbuild
      have hfields := (processTraceFields_fields trace _ e1 hpt).1
      have hmf : (mergeFields l e1 call).fields =
          setFields (setFields e1.fields l.defaultFields) call := rfl
      rw [hmf, findField_setFields call _ k hc]
      cases hcall : findField call k with
      | some v => simp
      | none =>
          simp only
          rw [findField_setFields l.defaultFields _ k hd]
          cases hdef : findField l.defaultFields k with
          | some v => simp
          | none =>
              simp only
              rw [hfields,
                findField_setFields _ [] k (keysNodup_filter trace nonReserved ht),
                findField_filter_nonReserved trace k hk1 hk2]
              cases htr : findField trace k <;> simp [findField]

/-- Concrete logger, trace, call and record realizing the spec's field
precedence example. -/
def loggerW2 : Logger :=
  { config := { serviceName := "svc", environment := "dev", logLevel := "debug",
                format := "json", defaultFields := [("a", "1")],
                outputPaths := ["stdout"] },
    writers := [.stdout],
    defaultFields := setFields [] (liftStringFields [("a", "1")]) }

def traceW2 : Fields := [("a", GoValue.str "2"), ("b", GoValue.str "3")]

def callW2 : Fields := [("a", GoValue.str "4")]

def entW2 : LogEntry :=
  { level := "info", message := "m", service := "svc", environment := "dev",
    requestID := "", traceID := "",
    fields := [("a", GoValue.str "4"), ("b", GoValue.str "3")] }

theorem field_precedence_witness :
    buildEntry loggerW2 traceW2 "info" "m" callW2 = some entW2 ∧
      findField entW2.fields "a" =
        (match findField callW2 "a" with
         | some v => some v
         | none =>
           match findField loggerW2.defaultFields "a" with
           | some v => some v
           | none => findField traceW2 "a") ∧
      findField entW2.fields "b" =
        (match findField callW2 "b" with
         | some v => some v
         | none =>
           match findField loggerW2.defaultFields "b" with
           | some v => some v
           | none => findField traceW2 "b") ∧
      findField entW2.fields "a" = some (GoValue.str "4") ∧
      findField entW2.fields "b" = some (GoValue.str "3") :=
  ⟨by decide,
    field_precedence loggerW2 traceW2 callW2 "info" "m" entW2 "a" (by decide)
      (by decide) (by decide) (by decide) (by decide) (by decide),
    field_precedence loggerW2 traceW2 callW2 "info" "m" entW2 "b" (by decide)
      (by decide) (by decide) (by decide) (by decide) (by decide),
    by decide, by decide⟩

/-! ## Level filtering (C3, C10) -/

theorem textRender_ne_empty (ts : String) (e : LogEntry) : textRender ts e ≠ "" := by
  intro h
  have hlen := congrArg String.length h
  simp [textRender, String.length_append] at hlen
  exact absurd hlen.2 (by decide)

theorem jsonRender_ne_empty (ts : String) (e : LogEntry) : jsonRender ts e ≠ "" := by
  intro h
  have hlen := congrArg String.length h
  simp [jsonRender, String.length_append] at hlen
  exact absurd hlen.2 (by decide)

theorem writeLog_spec (l : Logger) (ts : String) (e : LogEntry) :
    (writeLog l ts e).length = l.writers.length ∧
      ∀ o ∈ writeLog l ts e, o ≠ "" := by
  constructor
  · simp [writeLog]
  · intro o ho
    simp only [writeLog, List.mem_map] at ho
    obtain ⟨w, hw, heq⟩ := ho
    rw [← heq]
    by_cases hf : l.config.format = "json"
    · simp only [hf, if_pos rfl]
      intro hcon
      have hlen := congrArg String.length hcon
      simp [String.length_append] at hlen
      exact absurd hlen.2 (by decide)
    · simp only [if_neg hf]
      exact textRender_ne_empty ts e

theorem log_output (l : Logger) (ts : String) (trace : Fields) (lv : Level)
    (msg : String) (call : Fields) (hres : reservedOk trace = true)
    (hen : isLevelEnabled l lv = true) :
    ∃ outs, log l ts trace lv msg call = .ok (some outs) ∧
      outs.length = l.writers.length ∧ ∀ o ∈ outs, o ≠ "" := by
  obtain ⟨e1, he1⟩ := processTraceFields_isSome trace
    { level := lv, message := msg, service := l.config.serviceName,
      environment := l.config.environment, requestID := "", traceID := "",
      fields := [] } hres
  refine ⟨writeLog l ts (mergeFields l e1 call), ?_, (writeLog_spec l ts _).1,
    (writeLog_spec l ts _).2⟩
  simp [log, hen, buildEntry, he1]

/-- The five named severity levels in ascending order. -/
def namedLevels : List Level := ["debug", "info", "warn", "error", "fatal"]

/-- C3: with the configured minimum and the call severity among the five
named levels, a severity call writes to the sinks iff its level is at or
above the configured minimum under Debug < Info < Warn < Error < Fatal;
below the minimum it is dropped silently with zero bytes on any sink. -/
theorem level_filtering (l : Logger) (ts : String) (trace : Fields)
    (msg : String) (call : Fields) (lv : Level)
    (hres : reservedOk trace = true)
    (hcfg : l.config.logLevel ∈ namedLevels) (hlv : lv ∈ namedLevels) :
    (levelRank "debug" < levelRank "info" ∧ levelRank "info" < levelRank "warn" ∧
      levelRank "warn" < levelRank "error" ∧
      levelRank "error" < levelRank "fatal") ∧
    (levelRank lv < levelRank l.config.logLevel →
      log l ts trace lv msg call = .ok none) ∧
    (levelRank l.config.logLevel ≤ levelRank lv →
      ∃ outs, log l ts trace lv msg call = .ok (some outs) ∧
        outs.length = l.writers.length ∧ ∀ o ∈ outs, o ≠ "") := by
  refine ⟨by decide, ?_, ?_⟩
  · intro hlt
    have hen : isLevelEnabled l lv = false := by
      simp only [isLevelEnabled, decide_eq_false_iff_not]
      omega
    simp [log, hen]
  · intro hle
    exact log_output l ts trace lv msg call hres
      (by simp only [isLevelEnabled, decide_eq_true_eq]; omega)

/-- Concrete logger with configured minimum level warn, for the C3 witness. -/
def loggerW3 : Logger :=
  { config := { serviceName := "svc", environment := "dev", logLevel := "warn",
                format := "text", defaultFields := [], outputPaths := ["stdout"] },
    writers := [.stdout], defaultFields := [] }

theorem level_filtering_witness :
    (reservedOk [] = true ∧ loggerW3.config.logLevel ∈ namedLevels ∧
      ("debug" : Level) ∈ namedLevels ∧ ("warn" : Level) ∈ namedLevels ∧
      levelRank "debug" < levelRank loggerW3.config.logLevel ∧
      levelRank loggerW3.config.logLevel ≤ levelRank "warn") ∧
    log loggerW3 "T" [] "debug" "m" [] = .ok none ∧
    (∃ outs, log loggerW3 "T" [] "warn" "m" [] = .ok (some outs) ∧
      outs.length = loggerW3.writers.length ∧ ∀ o ∈ outs, o ≠ "") :=
  ⟨by decide,
    (level_filtering loggerW3 "T" [] "m" [] "debug" (by decide) (by decide)
      (by decide)).2.1 (by decide),
    (level_filtering loggerW3 "T" [] "m" [] "warn" (by decide) (by decide)
      (by decide)).2.2 (by decide)⟩

/-- C10: a configured LogLevel outside the five named levels (for example the
zero-value empty string of an unset Config field) ranks 0 — the same rank as
the debug minimum — so every severity call passes the filter and produces
output, rather than being rejected or defaulting to info. -/
theorem unknown_level_passes_filter (l : Logger) (ts : String) (trace : Fields)
    (msg : String) (call : Fields) (lv : Level)
    (hres : reservedOk trace = true)
    (hcfg : l.config.logLevel ∉ namedLevels) (hlv : lv ∈ namedLevels) :
    levelRank l.config.logLevel = 0 ∧
      levelRank l.config.logLevel = levelRank "debug" ∧
      isLevelEnabled l lv = true ∧
      ∃ outs, log l ts trace lv msg call = .ok (some outs) ∧
        outs.length = l.writers.length ∧ ∀ o ∈ outs, o ≠ "" := by
  have h0 : levelRank l.config.logLevel = 0 := by
    simp [namedLevels] at hcfg
    obtain ⟨h1, h2, h3, h4, h5⟩ := hcfg
    simp [levelRank, h1, h2, h3, h4, h5]
  have hen : isLevelEnabled l lv = true := by
    simp [isLevelEnabled, h0]
  exact ⟨h0, by rw [h0]; rfl, hen,
    log_output l ts trace lv msg call hres hen⟩

/-- Concrete logger whose Config was built without setting LogLevel: the
field holds Go's zero-value empty string. -/
def loggerW10 : Logger :=
  { config := { serviceName := "svc", environment := "dev", logLevel := "",
                format := "text", defaultFields := [], outputPaths := ["stdout"] },
    writers := [.stdout], defaultFields := [] }

theorem unknown_level_passes_filter_witness :
    (reservedOk [] = true ∧ loggerW10.config.logLevel ∉ namedLevels ∧
      ("debug" : Level) ∈ namedLevels) ∧
    (levelRank loggerW10.config.logLevel = 0 ∧
      levelRank loggerW10.config.logLevel = levelRank "debug" ∧
      isLevelEnabled loggerW10 "debug" = true ∧
      ∃ outs, log loggerW10 "T" [] "debug" "m" [] = .ok (some outs) ∧
        outs.length = loggerW10.writers.length ∧ ∀ o ∈ outs, o ≠ "") :=
  ⟨by decide,
    unknown_level_passes_filter loggerW10 "T" [] "m" [] "debug" (by decide)
      (by decide) (by decide)⟩

/-! ## Construction (C9) -/

/-- A path the writer factory can open: the two standard streams always,
any other path when the filesystem oracle allows it. -/
def pathOpenable (fs : String → Bool) (p : String) : Bool :=
  p == "stdout" || p == "stderr" || fs p

theorem createWriter_ok (fs : String → Bool) (p : String)
    (h : pathOpenable fs p = true) : ∃ w, createWriter fs p = .ok w := by
  by_cases h1 : p = "stdout"
  · exact ⟨.stdout, by simp [createWriter, h1]⟩
  · by_cases h2 : p = "stderr"
    · exact ⟨.stderr, by simp [createWriter, h1, h2]⟩
    · have h3 : fs p = true := by
        simpa [pathOpenable, h1, h2] using h
      exact ⟨.file p, by simp [createWriter, h1, h2, h3]⟩

theorem createWriter_error (fs : String → Bool) (p : String)
    (h : pathOpenable fs p = false) :
    createWriter fs p = .error "open failed" := by
  simp only [pathOpenable, Bool.or_eq_false_iff, beq_eq_false_iff_ne] at h
  simp [createWriter, h.1.1, h.1.2, h.2]

theorem initWriters_ok (fs : String → Bool) (paths : List String)
    (h : ∀ p ∈ paths, pathOpenable fs p = true) :
    ∃ ws, initWriters fs paths = .ok ws ∧ ws.length = paths.length := by
  induction paths with
  | nil => exact ⟨[], rfl, rfl⟩
  | cons p rest ih =>
      obtain ⟨w, hw⟩ := createWriter_ok fs p (h p (List.mem_cons_self p rest))
      obtain ⟨ws, hws, hlen⟩ := ih (fun q hq => h q (List.mem_cons_of_mem _ hq))
      exact ⟨w :: ws, by simp [initWriters, hw, hws], by simp [hlen]⟩

theorem initWriters_error (fs : String → Bool) (paths : List String)
    (h : ∃ p ∈ paths, pathOpenable fs p = false) :
    ∃ msg, initWriters fs paths = .error msg := by
  induction paths with
  | nil => simp at h
  | cons p rest ih =>
      by_cases hp : pathOpenable fs p = true
      · obtain ⟨q, hq, hqf⟩ := h
        rcases List.mem_cons.mp hq with heq | hq2
        · rw [heq] at hqf
          rw [hp] at hqf
          cases hqf
        · obtain ⟨w, hw⟩ := createWriter_ok fs p hp
          obtain ⟨msg, hmsg⟩ := ih ⟨q, hq2, hqf⟩
          exact ⟨msg, by simp [initWriters, hw, hmsg]⟩
      · have herr := createWriter_error fs p (by simpa using hp)
        exact ⟨"failed to create writer for " ++ p ++ ": " ++ "open failed",
          by simp [initWriters, herr]⟩

/-- C9: `NewLogger` either returns a fully initialized logger (config
installed, one writer per output path, default fields copied) and no error
— exactly when every configured output path can be opened — or, when some
path cannot be opened, returns an error and no logger at all. -/
theorem construction_all_or_nothing (fs : String → Bool) (cfg : Option Config) :
    ((∃ l, NewLogger fs cfg = .ok l ∧ l.config = cfg.getD defaultConfig ∧
        l.writers.length = (cfg.getD defaultConfig).outputPaths.length ∧
        l.defaultFields =
          setFields [] (liftStringFields (cfg.getD defaultConfig).defaultFields)) ↔
      ∀ p ∈ (cfg.getD defaultConfig).outputPaths, pathOpenable fs p = true) ∧
    ((∃ p ∈ (cfg.getD defaultConfig).outputPaths, pathOpenable fs p = false) →
      (∃ msg, NewLogger fs cfg = .error msg) ∧
        ∀ l, NewLogger fs cfg ≠ .ok l) := by
  constructor
  · constructor
    · rintro ⟨l, hok, -, -, -⟩
      by_contra hcon
      push_neg at hcon
      obtain ⟨p, hp, hpf⟩ := hcon
      obtain ⟨msg, hmsg⟩ := initWriters_error fs (cfg.getD defaultConfig).outputPaths
        ⟨p, hp, by simpa using hpf⟩
      rw [NewLogger.eq_def] at hok
      simp only [hmsg] at hok
      cases hok
    · intro hall
      obtain ⟨ws, hws, hlen⟩ :=
        initWriters_ok fs (cfg.getD defaultConfig).outputPaths hall
      refine ⟨⟨cfg.getD defaultConfig, ws,
          setFields [] (liftStringFields (cfg.getD defaultConfig).defaultFields)⟩,
        ?_, rfl, hlen, rfl⟩
      rw [NewLogger.eq_def]
      simp only [hws]
  · intro hex
    obtain ⟨msg, hmsg⟩ :=
      initWriters_error fs (cfg.getD defaultConfig).outputPaths hex
    have herr : NewLogger fs cfg = .error msg := by
      rw [NewLogger.eq_def]
      simp only [hmsg]
    exact ⟨⟨msg, herr⟩, fun l hl => by rw [herr] at hl; cases hl⟩

/-- Filesystem oracle on which no real file can be opened. -/
def fsNone : String → Bool := fun _ => false

def cfgGood : Config :=
  { serviceName := "svc", environment := "dev", logLevel := "info",
    format := "json", defaultFields := [("a", "1")],
    outputPaths := ["stdout", "stderr"] }

def cfgBad : Config :=
  { serviceName := "svc", environment := "dev", logLevel := "info",
    format := "json", defaultFields := [("a", "1")],
    outputPaths := ["stdout", "app.log"] }

theorem construction_all_or_nothing_witness :
    (∀ p ∈ cfgGood.outputPaths, pathOpenable fsNone p = true) ∧
    (∃ l, NewLogger fsNone (some cfgGood) = .ok l ∧
      l.config = (some cfgGood).getD defaultConfig ∧
      l.writers.length = ((some cfgGood).getD defaultConfig).outputPaths.length ∧
      l.defaultFields =
        setFields []
          (liftStringFields ((some cfgGood).getD defaultConfig).defaultFields)) ∧
    (∃ p ∈ cfgBad.outputPaths, pathOpenable fsNone p = false) ∧
    ((∃ msg, NewLogger fsNone (some cfgBad) = .error msg) ∧
      ∀ l, NewLogger fsNone (some cfgBad) ≠ .ok l) :=
  ⟨by decide,
    (construction_all_or_nothing fsNone (some cfgGood)).1.mpr (by decide),
    by decide,
    (construction_all_or_nothing fsNone (some cfgBad)).2 (by decide)⟩

/-! ## Eviction (trace_context.go, C4 and C5) -/

/-- A trace store never holds two entries for one goroutine id. -/
def keysNodupT (s : TraceStore) : Prop := (s.map Prod.fst).Nodup

instance (s : TraceStore) : Decidable (keysNodupT s) :=
  List.nodupDecidable _

/-- First pass of `cleanupTraces`: ids whose entries satisfy
`now.Sub(entry.timestamp) > maxTraceAge` at the snapshot. -/
def expiredIDs (maxAge now : Nat) (s : TraceStore) : List Nat :=
  (s.filter (fun p => decide (maxAge < now - p.2.timestamp))).map Prod.fst

/-- The `delete(traces, gID)` loop run for every id in `ids`. -/
def deleteIDs (ids : List Nat) (s : TraceStore) : TraceStore :=
  s.filter (fun p => decide (p.1 ∉ ids))

/-- Store contents after the age-based phase of `cleanupTraces` (Go deletes
only when some id expired; the result is the same either way). -/
def ageSurvivors (maxAge now : Nat) (s : TraceStore) : TraceStore :=
  if 0 < (expiredIDs maxAge now s).length
  then deleteIDs (expiredIDs maxAge now s) s else s

/-- The `sort.Slice` comparison `entries[i].timestamp.Before(...)` relaxed to
its non-strict closure: the sort order among equal timestamps is arbitrary. -/
def tsLe (a b : Nat × Nat) : Prop := a.2 ≤ b.2

instance : DecidableRel tsLe := fun a b => Nat.decLe a.2 b.2

instance : IsTotal (Nat × Nat) tsLe := ⟨fun a b => Nat.le_total a.2 b.2⟩

instance : IsTrans (Nat × Nat) tsLe := ⟨fun _ _ _ h1 h2 => Nat.le_trans h1 h2⟩

/-- The ids deleted by `performSizeBasedCleanup`: gather (gID, timestamp)
pairs, sort ascending by timestamp, delete the first `count - maxEntries`. -/
def sizeRemovalIDs (maxEntries : Nat) (s : TraceStore) : List Nat :=
  ((List.insertionSort tsLe (s.map (fun p => (p.1, p.2.timestamp)))).take
    ((s.map (fun p => (p.1, p.2.timestamp))).length - maxEntries)).map Prod.fst

/-- Model of `performSizeBasedCleanup`: re-check the limit under the lock,
then delete the oldest surplus entries. -/
def performSizeBasedCleanup (maxEntries : Nat) (s : TraceStore) : TraceStore :=
  if maxEntries < s.length then deleteIDs (sizeRemovalIDs maxEntries s) s else s

/-- Model of one `cleanupTraces` cycle.  `maxAge` and `maxEntries` model the
package variables `maxTraceAge` and `maxTraceEntries`, `now` the snapshot
`time.Now()`.  The size-based phase is triggered by the pre-deletion total
entry count. -/
def cleanupTraces (maxAge maxEntries now : Nat) (s : TraceStore) : TraceStore :=
  let totalEntries := s.length
  let s1 := ageSurvivors maxAge now s
  if maxEntries < totalEntries then performSizeBasedCleanup maxEntries s1 else s1

/-- Go default `maxTraceAge` (30 minutes, in seconds). -/
def maxTraceAgeDefault : Nat := 30 * 60

/-- Go default `maxTraceEntries`. -/
def maxTraceEntriesDefault : Nat := 10000

theorem findTrace_eq_of_mem (s : TraceStore) (g : Nat) (e : TraceEntry)
    (hnd : keysNodupT s) (hmem : (g, e) ∈ s) : findTrace s g = some e := by
  induction s with
  | nil => simp at hmem
  | cons p rest ih =>
      have hcons : (p.1 :: rest.map Prod.fst).Nodup := by
        simpa only [keysNodupT, List.map_cons] using hnd
      have hpair := List.nodup_cons.mp hcons
      rcases List.mem_cons.mp hmem with heq | hmem2
      · rw [← heq]
        simp [findTrace]
      · have hg : p.1 ≠ g := by
          intro h
          exact hpair.1 (h ▸ List.mem_map_of_mem Prod.fst hmem2)
        simp [findTrace, hg]
        exact ih hpair.2 hmem2

theorem ageSurvivors_sublist (maxAge now : Nat) (s : TraceStore) :
    (ageSurvivors maxAge now s).Sublist s := by
  unfold ageSurvivors
  by_cases h : 0 < (expiredIDs maxAge now s).length
  · rw [if_pos h]
    exact List.filter_sublist s
  · rw [if_neg h]

theorem cleanup_subset (maxAge maxEntries now : Nat) (s : TraceStore)
    (p : Nat × TraceEntry) (hp : p ∈ cleanupTraces maxAge maxEntries now s) :
    p ∈ ageSurvivors maxAge now s := by
  unfold cleanupTraces at hp
  by_cases h : maxEntries < s.length
  · simp only [if_pos h] at hp
    unfold performSizeBasedCleanup at hp
    by_cases h2 : maxEntries < (ageSurvivors maxAge now s).length
    · rw [if_pos h2] at hp
      exact List.mem_of_mem_filter hp
    · rwa [if_neg h2] at hp
  · simpa only [if_neg h] using hp

/-- C4: after one eviction cycle over a snapshot taken at time `now`, every
entry older than maxTraceAge (and not re-set during the cycle — the model is
sequential) is absent from the store, and the age-based phase removes no
entry at or under the age bound. -/
theorem age_eviction (maxAge maxEntries now : Nat) (s : TraceStore)
    (gID : Nat) (e : TraceEntry) (hnd : keysNodupT s) (hmem : (gID, e) ∈ s) :
    (maxAge < now - e.timestamp →
      ∀ p ∈ cleanupTraces maxAge maxEntries now s, p.1 ≠ gID) ∧
    (now - e.timestamp ≤ maxAge → (gID, e) ∈ ageSurvivors maxAge now s) := by
  constructor
  · intro hold p hp hpg
    have hps := cleanup_subset maxAge maxEntries now s p hp
    have hexp : gID ∈ expiredIDs maxAge now s :=
      List.mem_map_of_mem Prod.fst
        (List.mem_filter.mpr ⟨hmem, by simpa using hold⟩)
    have hlen : 0 < (expiredIDs maxAge now s).length :=
      List.length_pos.mpr (List.ne_nil_of_mem hexp)
    unfold ageSurvivors at hps
    rw [if_pos hlen] at hps
    have hcond := (List.mem_filter.mp hps).2
    rw [hpg] at hcond
    simp at hcond
    exact hcond hexp
  · intro hyoung
    have hnotexp : gID ∉ expiredIDs maxAge now s := by
      intro hexp
      obtain ⟨q, hq, hqg⟩ := List.mem_map.mp hexp
      have hqs := List.mem_of_mem_filter hq
      have hqold := (List.mem_filter.mp hq).2
      have hfe := findTrace_eq_of_mem s gID e hnd hmem
      have hfq := findTrace_eq_of_mem s q.1 q.2 hnd hqs
      rw [hqg, hfe] at hfq
      have hqe : e = q.2 := Option.some.inj hfq
      rw [← hqe] at hqold
      simp at hqold
      omega
    unfold ageSurvivors
    by_cases hlen : 0 < (expiredIDs maxAge now s).length
    · rw [if_pos hlen]
      exact List.mem_filter.mpr ⟨hmem, by simpa using hnotexp⟩
    · rw [if_neg hlen]
      exact hmem

/-- Concrete store for the C4 witness: with `now = 100` and `maxAge = 10`,
the entry under id 1 (timestamp 50) is expired, the one under id 2
(timestamp 95) is not. -/
def storeW4 : TraceStore := [(1, ⟨[], 50⟩), (2, ⟨[], 95⟩)]

theorem age_eviction_witness :
    (keysNodupT storeW4 ∧ (1, (⟨[], 50⟩ : TraceEntry)) ∈ storeW4 ∧
      (2, (⟨[], 95⟩ : TraceEntry)) ∈ storeW4 ∧
      10 < 100 - (50 : Nat) ∧ 100 - (95 : Nat) ≤ 10) ∧
    (∀ p ∈ cleanupTraces 10 10 100 storeW4, p.1 ≠ 1) ∧
    (2, (⟨[], 95⟩ : TraceEntry)) ∈ ageSurvivors 10 100 storeW4 :=
  ⟨⟨by decide, by decide, by decide, by decide, by decide⟩,
    (age_eviction 10 10 100 storeW4 1 ⟨[], 50⟩ (by decide) (by decide)).1
      (by decide),
    (age_eviction 10 10 100 storeW4 2 ⟨[], 95⟩ (by decide) (by decide)).2
      (by decide)⟩

theorem length_filter_key_ne (s : TraceStore) (i : Nat) (hnd : keysNodupT s)
    (hi : i ∈ s.map Prod.fst) :
    (s.filter (fun p => decide (p.1 ≠ i))).length + 1 = s.length := by
  induction s with
  | nil => simp at hi
  | cons p rest ih =>
      have hcons : (p.1 :: rest.map Prod.fst).Nodup := by
        simpa only [keysNodupT, List.map_cons] using hnd
      have hpair := List.nodup_cons.mp hcons
      by_cases hp : p.1 = i
      · rw [List.filter_cons_of_neg (by simp [hp])]
        have hall : rest.filter (fun r => decide (r.1 ≠ i)) = rest := by
          apply List.filter_eq_self.mpr
          intro q hq
          have hqi : q.1 ≠ i := by
            intro h
            apply hpair.1
            rw [hp, ← h]
            exact List.mem_map_of_mem Prod.fst hq
          simpa using hqi
        rw [hall]
        simp
      · rw [List.filter_cons_of_pos (by simpa using hp)]
        have hi2 : i ∈ rest.map Prod.fst := by
          rw [List.map_cons] at hi
          rcases List.mem_cons.mp hi with h | h
          · exact absurd h.symm hp
          · exact h
        have hrec := ih hpair.2 hi2
        simp only [List.length_cons]
        omega

theorem deleteIDs_nil (s : TraceStore) : deleteIDs [] s = s := by
  simp [deleteIDs]

theorem deleteIDs_cons (i : Nat) (ids : List Nat) (s : TraceStore) :
    deleteIDs (i :: ids) s =
      deleteIDs ids (s.filter (fun p => decide (p.1 ≠ i))) := by
  unfold deleteIDs
  rw [List.filter_filter]
  apply List.filter_congr
  intro p hp
  by_cases h1 : p.1 = i
  · simp [h1]
  · by_cases h2 : p.1 ∈ ids <;> simp [h1, h2]

theorem length_deleteIDs (ids : List Nat) (s : TraceStore)
    (hnd : ids.Nodup) (hsub : ∀ i ∈ ids, i ∈ s.map Prod.fst)
    (hs : keysNodupT s) :
    (deleteIDs ids s).length + ids.length = s.length := by
  induction ids generalizing s with
  | nil => simp [deleteIDs_nil]
  | cons i ids ih =>
      have hpair := List.nodup_cons.mp hnd
      have hsnd : keysNodupT (s.filter (fun p => decide (p.1 ≠ i))) := by
        have hsub2 : (s.filter (fun p => decide (p.1 ≠ i))).Sublist s :=
          List.filter_sublist s
        exact List.Nodup.sublist (hsub2.map Prod.fst) hs
      have hsub' : ∀ j ∈ ids,
          j ∈ (s.filter (fun p => decide (p.1 ≠ i))).map Prod.fst := by
        intro j hj
        have hji : j ≠ i := fun h => hpair.1 (h ▸ hj)
        obtain ⟨q, hq, hqj⟩ := List.mem_map.mp (hsub j (List.mem_cons_of_mem _ hj))
        refine List.mem_map.mpr ⟨q, List.mem_filter.mpr ⟨hq, ?_⟩, hqj⟩
        simp [hqj, hji]
      have hcount := length_filter_key_ne s i hs (hsub i (List.mem_cons_self i ids))
      have hrec := ih _ hpair.2 hsub' hsnd
      rw [deleteIDs_cons]
      simp only [List.length_cons]
      omega

theorem map_fst_entries (s : TraceStore) :
    (s.map (fun p => (p.1, p.2.timestamp))).map Prod.fst = s.map Prod.fst := by
  rw [List.map_map]
  rfl

theorem sizeRemovalIDs_nodup (maxEntries : Nat) (s : TraceStore)
    (hnd : keysNodupT s) : (sizeRemovalIDs maxEntries s).Nodup := by
  unfold sizeRemovalIDs
  have hperm := List.perm_insertionSort tsLe (s.map fun p => (p.1, p.2.timestamp))
  have hnd2 : ((List.insertionSort tsLe
      (s.map fun p => (p.1, p.2.timestamp))).map Prod.fst).Nodup := by
    refine ((hperm.map Prod.fst).nodup_iff).mpr ?_
    rw [map_fst_entries]
    exact hnd
  exact List.Nodup.sublist ((List.take_sublist _ _).map Prod.fst) hnd2

theorem sizeRemovalIDs_subset (maxEntries : Nat) (s : TraceStore) :
    ∀ i ∈ sizeRemovalIDs maxEntries s, i ∈ s.map Prod.fst := by
  intro i hi
  unfold sizeRemovalIDs at hi
  obtain ⟨q, hq, hqi⟩ := List.mem_map.mp hi
  have hq2 := List.mem_of_mem_take hq
  have hq3 := (List.perm_insertionSort tsLe
    (s.map fun p => (p.1, p.2.timestamp))).mem_iff.mp hq2
  obtain ⟨p, hp, hpq⟩ := List.mem_map.mp hq3
  refine List.mem_map.mpr ⟨p, hp, ?_⟩
  rw [← hqi, ← hpq]

theorem sizeRemovalIDs_length (maxEntries : Nat) (s : TraceStore)
    (h : maxEntries ≤ s.length) :
    (sizeRemovalIDs maxEntries s).length = s.length - maxEntries := by
  unfold sizeRemovalIDs
  simp only [List.length_map, List.length_take, List.length_insertionSort]
  omega

theorem performSizeBasedCleanup_length (maxEntries : Nat) (s : TraceStore)
    (hnd : keysNodupT s) :
    (performSizeBasedCleanup maxEntries s).length = min s.length maxEntries := by
  unfold performSizeBasedCleanup
  by_cases h : maxEntries < s.length
  · rw [if_pos h]
    have hcnt := length_deleteIDs (sizeRemovalIDs maxEntries s) s
      (sizeRemovalIDs_nodup maxEntries s hnd) (sizeRemovalIDs_subset maxEntries s)
      hnd
    have hlen := sizeRemovalIDs_length maxEntries s (Nat.le_of_lt h)
    omega
  · rw [if_neg h]
    omega

theorem performSizeBasedCleanup_oldest (maxEntries : Nat) (s : TraceStore)
    (hnd : keysNodupT s) (p : Nat × TraceEntry) (hp : p ∈ s)
    (hrem : p ∉ performSizeBasedCleanup maxEntries s)
    (q : Nat × TraceEntry) (hq : q ∈ performSizeBasedCleanup maxEntries s) :
    p.2.timestamp ≤ q.2.timestamp := by
  unfold performSizeBasedCleanup at hrem hq
  by_cases h : maxEntries < s.length
  case neg =>
    rw [if_neg h] at hrem
    exact absurd hp hrem
  rw [if_pos h] at hrem hq
  have hpid : p.1 ∈ sizeRemovalIDs maxEntries s := by
    by_contra hcon
    exact hrem (List.mem_filter.mpr ⟨hp, by simpa using hcon⟩)
  have hqs := List.mem_of_mem_filter hq
  have hqid : q.1 ∉ sizeRemovalIDs maxEntries s := by
    have hcond := (List.mem_filter.mp hq).2
    simpa using hcond
  unfold sizeRemovalIDs at hpid hqid
  obtain ⟨pr, hprtake, hpr1⟩ := List.mem_map.mp hpid
  have hprs := List.mem_of_mem_take hprtake
  have hprent := (List.perm_insertionSort tsLe
    (s.map fun r => (r.1, r.2.timestamp))).mem_iff.mp hprs
  obtain ⟨p', hp's, hp'pr⟩ := List.mem_map.mp hprent
  have hp'1 : p'.1 = p.1 := by rw [← hpr1, ← hp'pr]
  have hfp := findTrace_eq_of_mem s p.1 p.2 hnd hp
  have hfp' := findTrace_eq_of_mem s p'.1 p'.2 hnd hp's
  rw [hp'1, hfp] at hfp'
  have hp'2 : p.2 = p'.2 := Option.some.inj hfp'
  have hprts : pr.2 = p.2.timestamp := by
    rw [← hp'pr, hp'2]
  have hqent : (q.1, q.2.timestamp) ∈ s.map fun r => (r.1, r.2.timestamp) :=
    List.mem_map.mpr ⟨q, hqs, rfl⟩
  have hqsorted := (List.perm_insertionSort tsLe
    (s.map fun r => (r.1, r.2.timestamp))).mem_iff.mpr hqent
  have hqdrop : (q.1, q.2.timestamp) ∈
      (List.insertionSort tsLe (s.map fun r => (r.1, r.2.timestamp))).drop
        ((s.map fun r => (r.1, r.2.timestamp)).length - maxEntries) := by
    rw [← List.take_append_drop
      ((s.map fun r => (r.1, r.2.timestamp)).length - maxEntries)
      (List.insertionSort tsLe (s.map fun r => (r.1, r.2.timestamp)))] at hqsorted
    rcases List.mem_append.mp hqsorted with htk | hdr
    · exact absurd (List.mem_map.mpr ⟨_, htk, rfl⟩) hqid
    · exact hdr
  have hsorted : List.Sorted tsLe
      (List.insertionSort tsLe (s.map fun r => (r.1, r.2.timestamp))) :=
    List.sorted_insertionSort tsLe _
  have hrel := hsorted.rel_of_mem_take_of_mem_drop hprtake hqdrop
  have hrel2 : pr.2 ≤ q.2.timestamp := hrel
  rw [hprts] at hrel2
  exact hrel2

/-- C5: a cycle starting with maxEntries + k entries (k > 0) triggers the
size-based phase off the pre-deletion total count, leaves at most maxEntries
entries, and the entries the size-based phase removes are oldest-first: every
removed entry's timestamp is at most every survivor's. -/
theorem size_eviction (maxAge maxEntries now : Nat) (s : TraceStore) (k : Nat)
    (hnd : keysNodupT s) (hlen : s.length = maxEntries + k) (hk : 0 < k) :
    cleanupTraces maxAge maxEntries now s =
      performSizeBasedCleanup maxEntries (ageSurvivors maxAge now s) ∧
    (cleanupTraces maxAge maxEntries now s).length =
      min (ageSurvivors maxAge now s).length maxEntries ∧
    (cleanupTraces maxAge maxEntries now s).length ≤ maxEntries ∧
    (∀ p ∈ ageSurvivors maxAge now s,
      p ∉ cleanupTraces maxAge maxEntries now s →
      ∀ q ∈ cleanupTraces maxAge maxEntries now s,
        p.2.timestamp ≤ q.2.timestamp) := by
  have htrig : maxEntries < s.length := by omega
  have heq : cleanupTraces maxAge maxEntries now s =
      performSizeBasedCleanup maxEntries (ageSurvivors maxAge now s) := by
    unfold cleanupTraces
    rw [if_pos htrig]
  have hnd1 : keysNodupT (ageSurvivors maxAge now s) :=
    List.Nodup.sublist ((ageSurvivors_sublist maxAge now s).map Prod.fst) hnd
  have hmin : (cleanupTraces maxAge maxEntries now s).length =
      min (ageSurvivors maxAge now s).length maxEntries := by
    rw [heq, performSizeBasedCleanup_length maxEntries _ hnd1]
  refine ⟨heq, hmin, ?_, ?_⟩
  · rw [hmin]
    omega
  · intro p hp hrem q hq
    rw [heq] at hrem hq
    exact performSizeBasedCleanup_oldest maxEntries _ hnd1 p hp hrem q hq

/-- Concrete store for the C5 witness: three entries, maxEntries 2, no entry
old enough for the age phase; the oldest entry (id 2, timestamp 10) must go. -/
def storeW5 : TraceStore := [(1, ⟨[], 30⟩), (2, ⟨[], 10⟩), (3, ⟨[], 20⟩)]

theorem size_eviction_witness :
    (keysNodupT storeW5 ∧ storeW5.length = 2 + 1 ∧ 0 < 1) ∧
    (cleanupTraces 100 2 40 storeW5 =
        performSizeBasedCleanup 2 (ageSurvivors 100 40 storeW5) ∧
      (cleanupTraces 100 2 40 storeW5).length =
        min (ageSurvivors 100 40 storeW5).length 2 ∧
      (cleanupTraces 100 2 40 storeW5).length ≤ 2 ∧
      (∀ p ∈ ageSurvivors 100 40 storeW5,
        p ∉ cleanupTraces 100 2 40 storeW5 →
        ∀ q ∈ cleanupTraces 100 2 40 storeW5,
          p.2.timestamp ≤ q.2.timestamp)) :=
  ⟨⟨by decide, by decide, by decide⟩,
    size_eviction 100 2 40 storeW5 1 (by decide) (by decide) (by decide)⟩

end NullBdLogger
